import Mathlib

set_option autoImplicit false

/-!
Shallow embedding of the role/location lifecycle core of `lab/roles.py`
(pytestlab): `RoleManager`, `Location` (per-hostname role-controller cache)
and `EnvManager` (location cache, locking policy, teardown sequencing).

Python objects become Lean structures; mutation becomes explicit state
passing; exceptions become `Except`; observable side effects (factory
builds, event-bus notifications, lock-client calls) are recorded in an
event trace returned alongside the new state.  Object identity (`is`) is
modelled by numeric ids (`locId` for locations, `id` for controllers).
Keyword arguments are modelled as association lists in call order, the
order Python 3 presents them in `kwargs.items()`.
-/

namespace PytestLab

/-- Association-list lookup, first matching key wins (Python `d[k]` /
`d.get(k)` on a dict, which never holds duplicate keys). -/
def alookup {α β : Type} [DecidableEq α] : List (α × β) → α → Option β
  | [], _ => none
  | kv :: rest, a => if kv.1 = a then some kv.2 else alookup rest a

/-- Association-list removal of the first entry with the given key
(Python `d.pop(k, None)`; no-op when the key is absent). -/
def apop {α β : Type} [DecidableEq α] : List (α × β) → α → List (α × β)
  | [], _ => []
  | kv :: rest, a => if kv.1 = a then rest else kv :: apop rest a

/-- Association-list assignment (Python `d[k] = v`): overwrite in place
when the key exists, append otherwise. -/
def aset {α β : Type} [DecidableEq α] : List (α × β) → α → β → List (α × β)
  | [], a, b => [(a, b)]
  | kv :: rest, a, b => if kv.1 = a then (a, b) :: rest else kv :: aset rest a b

/-- Left-biased choice on `Option` used to state lookup lemmas. -/
def oor {β : Type} : Option β → Option β → Option β
  | some v, _ => some v
  | none, y => y

/-- Python `d.update(e)`: entries of `e` applied left to right, existing
keys overwritten in place, new keys appended. -/
def dictUpdate {α β : Type} [DecidableEq α] (d e : List (α × β)) : List (α × β) :=
  e.foldl (fun acc kv => aset acc kv.1 kv.2) d

/-- Executable test for Python dict equality `dict(d) == dict(e)`:
the two association lists agree, as maps, on every key. -/
def dictBeq {α β : Type} [DecidableEq α] [DecidableEq β] (d e : List (α × β)) : Bool :=
  (d.map Prod.fst ++ e.map Prod.fst).all fun k => decide (alookup d k = alookup e k)

/-- Propositional form of Python dict equality: same value at every key. -/
def DictEq {α β : Type} [DecidableEq α] (d e : List (α × β)) : Prop :=
  ∀ k, alookup d k = alookup e k

/-- Decidable equality for `Except`, so runs of the embedded code can be
compared on concrete inputs. -/
instance {ε α : Type} [DecidableEq ε] [DecidableEq α] :
    DecidableEq (Except ε α) := fun a b =>
  match a, b with
  | .error e1, .error e2 =>
    if h : e1 = e2 then .isTrue (by rw [h])
    else .isFalse (fun hc => h (Except.error.inj hc))
  | .error _, .ok _ => .isFalse (fun hc => Except.noConfusion hc)
  | .ok _, .error _ => .isFalse (fun hc => Except.noConfusion hc)
  | .ok v1, .ok v2 =>
    if h : v1 = v2 then .isTrue (by rw [h])
    else .isFalse (fun hc => h (Except.ok.inj hc))

/-- Keyword arguments in call order (`tuple(kwargs.items())` preserves the
order the caller supplied, per Python 3 keyword-argument semantics). -/
abbrev Kwargs := List (String × Nat)

/-- Cache key used by `Location.role`: `key = name, tuple(kwargs.items())`. -/
abbrev RoleKey := String × Kwargs

/-- Location facts: free-form string key/value metadata. -/
abbrev Facts := List (String × String)

/-- A role controller as returned by a registered factory.  `location` is
`none` when the Python object lacks a `.location` attribute; `hasClose`
mirrors the optional `close()` teardown capability and `closeFails`
whether that `close()` call raises. -/
structure Controller where
  id : Nat
  location : Option Nat
  name : String
  key : RoleKey
  hasClose : Bool
  closeFails : Bool
deriving DecidableEq, Repr

/-- A software hosting location contactable via its hostname.  `roles` is
the insertion-ordered role cache (`OrderedDict`), `locId` the object
identity. -/
structure Location where
  hostname : String
  facts : Facts
  roles : List (RoleKey × Controller)
  locId : Nat
deriving DecidableEq, Repr

/-- Observable effects: factory builds, plugin registration, hook
notifications, lock-client calls. -/
inductive Ev where
  | build (key : RoleKey)
  | registered (name : String) (hostname : String)
  | roleCreated (cid : Nat)
  | roleDestroyed (cid : Nat)
  | close (cid : Nat)
  | unregistered (cid : Nat)
  | locationDestroyed (lid : Nat)
  | warnUnknownLocation (lid : Nat)
  | acquire (hostname : String)
  | release (hostname : String)
  | releaseAll
deriving DecidableEq, Repr

/-- Exceptions raised by the embedded code. -/
inductive Err where
  | attributeError (cid : Nat)
  | assertionError (cid : Nat)
  | keyError (name : String)
  | closeError (cid : Nat)
  | lockTimeout (hostname : String)
  | equipmentLookup (msg : String)
  | valueError (hostname : String)
  | cleanupAssert
deriving DecidableEq, Repr

/-- A registered role factory: invoked with the owning location and the
keyword arguments, returns a fresh controller (the Python factory also
receives the global config, which carries no information here). -/
abbrev Factory := Location → Kwargs → Controller

/-- Registry of role-name to factory, `RoleManager.roles2factories`. -/
structure RoleManager where
  roles2factories : List (String × Factory)

/-- `RoleManager.build`: look up the factory (a missing name raises
`KeyError`), invoke it, and stamp the result with `ctl.name = rolename`. -/
def RoleManager.build (rm : RoleManager) (rolename : String) (location : Location)
    (kwargs : Kwargs) : Except Err Controller :=
  match alookup rm.roles2factories rolename with
  | none => .error (.keyError rolename)
  | some factory => .ok { factory location kwargs with name := rolename }

/-- `Location.role`: return the cached controller for
`key = (name, tuple(kwargs.items()))`, or build it from its factory.
Mirrors the source order faithfully: the freshly built controller is
stored in the cache *before* its `.location` attribute is validated, and
a validation failure (missing attribute, or not identical to `self`)
raises without removing the cache entry. -/
def Location.role (rm : RoleManager) (loc : Location) (name : String)
    (kwargs : Kwargs) : Except Err Controller × Location × List Ev :=
  let key : RoleKey := (name, kwargs)
  match alookup loc.roles key with
  | some ctl => (.ok ctl, loc, [])
  | none =>
    match rm.build name loc kwargs with
    | .error e => (.error e, loc, [])
    | .ok built =>
      let ctl : Controller := { built with key := key }
      let loc1 : Location := { loc with roles := loc.roles ++ [(key, ctl)] }
      match ctl.location with
      | none => (.error (.attributeError ctl.id), loc1, [.build key])
      | some lid =>
        if lid = loc.locId then
          (.ok ctl, loc1,
            [.build key, .registered name loc.hostname, .roleCreated ctl.id])
        else
          (.error (.assertionError ctl.id), loc1, [.build key])

/-- `Location._close_role`: fire the (live) role-destroyed hook, invoke the
optional `close()` teardown — which may itself raise — then unregister the
plugin.  On a raising `close()` the unregister step is never reached. -/
def Location.close_role (ctl : Controller) : Except Err Unit × List Ev :=
  if ctl.hasClose then
    if ctl.closeFails then
      (.error (.closeError ctl.id), [.roleDestroyed ctl.id, .close ctl.id])
    else
      (.ok (), [.roleDestroyed ctl.id, .close ctl.id, .unregistered ctl.id])
  else
    (.ok (), [.roleDestroyed ctl.id, .unregistered ctl.id])

/-- `Location.destroy`: pop the controller by its stamped `_key`; when an
entry was present, close it; a missing entry is a silent no-op. -/
def Location.destroy (loc : Location) (ctl : Controller) :
    Except Err Unit × Location × List Ev :=
  match alookup loc.roles ctl.key with
  | none => (.ok (), loc, [])
  | some r =>
    let loc1 : Location := { loc with roles := apop loc.roles ctl.key }
    match Location.close_role r with
    | (res, evs) => (res, loc1, evs)

/-- The loop body of `Location.cleanup`: destroy each controller of the
(reversed copied) value list in turn; an exception aborts the loop. -/
def Location.cleanupLoop (loc : Location) :
    List Controller → Except Err Unit × Location × List Ev
  | [] => (.ok (), loc, [])
  | c :: rest =>
    match Location.destroy loc c with
    | (.error e, loc1, evs) => (.error e, loc1, evs)
    | (.ok _, loc1, evs) =>
      match Location.cleanupLoop loc1 rest with
      | (r, loc2, evs2) => (r, loc2, evs ++ evs2)

/-- `Location.cleanup`: destroy every cached controller in reverse
insertion order, then assert the cache is empty. -/
def Location.cleanup (loc : Location) : Except Err Unit × Location × List Ev :=
  match Location.cleanupLoop loc (loc.roles.map Prod.snd).reverse with
  | (.error e, loc1, evs) => (.error e, loc1, evs)
  | (.ok _, loc1, evs) =>
    if loc1.roles.isEmpty then (.ok (), loc1, evs)
    else (.error .cleanupAssert, loc1, evs)

/-- A location descriptor from the environment snapshot: its `name` is a
hostname and the descriptor itself carries the facts mapping. -/
structure Descriptor where
  name : String
  facts : Facts
deriving DecidableEq, Repr

/-- The static configuration of an `EnvManager`: environment name, the
immutable environment snapshot (`self.env.get`), whether a lock client is
configured, which acquisitions would time out, and the `neverlock` set. -/
structure EnvManager where
  name : String
  envGet : String → List Descriptor
  hasLocker : Bool
  lockFails : String → Option Nat → Bool
  neverlock : List String

/-- The mutable state of an `EnvManager`: the insertion-ordered hostname
to location cache plus a counter supplying fresh object identities. -/
structure EnvState where
  locations : List (String × Location)
  nextId : Nat
deriving DecidableEq, Repr

/-- `EnvManager.manage`: get-or-create the location for `hostname`.  On a
cache miss the new location is inserted *before* the lock acquisition, so
a lock timeout leaves it cached; on a hit only the facts are
merge-updated (when non-empty and different as a dict) and the lock and
timeout arguments are ignored. -/
def EnvManager.manage (em : EnvManager) (st : EnvState) (hostname : String)
    (facts : Facts) (lock : Bool) (timeout : Option Nat) :
    Except Err Location × EnvState × List Ev :=
  match alookup st.locations hostname with
  | some location =>
    if !facts.isEmpty && !dictBeq location.facts facts then
      let location1 : Location := { location with facts := dictUpdate location.facts facts }
      (.ok location1, { st with locations := aset st.locations hostname location1 }, [])
    else
      (.ok location, st, [])
  | none =>
    let location : Location :=
      { hostname := hostname, facts := facts, roles := [], locId := st.nextId }
    let st1 : EnvState :=
      { locations := st.locations ++ [(hostname, location)], nextId := st.nextId + 1 }
    if lock && em.hasLocker then
      if em.lockFails hostname timeout then
        (.error (.lockTimeout hostname), st1, [.acquire hostname])
      else
        (.ok location, st1, [.acquire hostname])
    else
      (.ok location, st1, [])

/-- The list comprehension of `get_locations`: `manage` each descriptor in
order, propagating the first exception. -/
def EnvManager.manageAll (em : EnvManager) (st : EnvState) :
    List Descriptor → Bool → Option Nat →
    Except Err (List Location) × EnvState × List Ev
  | [], _, _ => (.ok [], st, [])
  | d :: rest, lock, timeout =>
    match em.manage st d.name d.facts lock timeout with
    | (.error e, st1, evs) => (.error e, st1, evs)
    | (.ok loc, st1, evs) =>
      match em.manageAll st1 rest lock timeout with
      | (r, st2, evs2) =>
        match r with
        | .error e => (.error e, st2, evs ++ evs2)
        | .ok locs => (.ok (loc :: locs), st2, evs ++ evs2)

/-- The message of the `EquipmentLookupError` raised by `get_locations`. -/
def errMsg (rolename envname : String) : String :=
  "\x27" ++ (rolename ++ ("\x27 not found in environment \x27" ++
    (envname ++ "\x27\nDid you pass the wrong environment name with --env=NAME ?")))

/-- `EnvManager.get_locations`: resolve descriptors from the environment
snapshot, raise `EquipmentLookupError` when there are none, otherwise
`manage` each with the lock flag `rolename not in self.neverlock`. -/
def EnvManager.get_locations (em : EnvManager) (st : EnvState) (rolename : String)
    (timeout : Option Nat) : Except Err (List Location) × EnvState × List Ev :=
  let locations := em.envGet rolename
  if locations.isEmpty then
    (.error (.equipmentLookup (errMsg rolename em.name)), st, [])
  else
    em.manageAll st locations (!decide (rolename ∈ em.neverlock)) timeout

/-- `EnvManager.destroy`: pop the cache entry keyed by the *argument's*
hostname (raising `ValueError` when absent), log a warning — never raise —
when the cached object is not the argument, clean up the argument object,
fire the location-destroyed hook for it, and finally release the lock when
a lock client is configured.  The release is only reached when the cleanup
returned normally: there is no try/finally here. -/
def EnvManager.destroy (em : EnvManager) (st : EnvState) (location : Location) :
    Except Err Unit × EnvState × List Ev :=
  match alookup st.locations location.hostname with
  | none => (.error (.valueError location.hostname), st, [])
  | some loc =>
    let st1 : EnvState := { st with locations := apop st.locations location.hostname }
    let warnEvs : List Ev :=
      if loc.locId = location.locId then [] else [.warnUnknownLocation location.locId]
    match Location.cleanup location with
    | (.error e, _, evs) => (.error e, st1, warnEvs ++ evs)
    | (.ok _, _, evs) =>
      if em.hasLocker then
        (.ok (), st1, warnEvs ++ evs ++ [.locationDestroyed location.locId, .release loc.hostname])
      else
        (.ok (), st1, warnEvs ++ evs ++ [.locationDestroyed location.locId])

/-- The loop body of `EnvManager.cleanup`: destroy each location of the
(reversed copied) value list in turn; an exception aborts the loop. -/
def EnvManager.cleanupLoop (em : EnvManager) (st : EnvState) :
    List Location → Except Err Unit × EnvState × List Ev
  | [] => (.ok (), st, [])
  | l :: rest =>
    match em.destroy st l with
    | (.error e, st1, evs) => (.error e, st1, evs)
    | (.ok _, st1, evs) =>
      match em.cleanupLoop st1 rest with
      | (r, st2, evs2) => (r, st2, evs ++ evs2)

/-- `EnvManager.cleanup`: destroy every managed location in reverse
creation order inside a `try`, with `release_all` on the lock client in
the `finally`, so the bulk release runs exactly once on exit and any loop
exception still propagates afterwards. -/
def EnvManager.cleanup (em : EnvManager) (st : EnvState) :
    Except Err Unit × EnvState × List Ev :=
  match em.cleanupLoop st (st.locations.map Prod.snd).reverse with
  | (r, st1, evs) =>
    if em.hasLocker then (r, st1, evs ++ [.releaseAll]) else (r, st1, evs)

/-- Controller ids of the role-destroyed notifications in a trace. -/
def destroyedRoleIds (evs : List Ev) : List Nat :=
  evs.filterMap fun e => match e with | .roleDestroyed i => some i | _ => none

/-- Location ids of the location-destroyed notifications in a trace. -/
def destroyedLocIds (evs : List Ev) : List Nat :=
  evs.filterMap fun e => match e with | .locationDestroyed i => some i | _ => none

/-- Whether an event is a lock-client `acquire` call. -/
def isAcquire : Ev → Bool
  | .acquire _ => true
  | _ => false

/-- Whether an event is a per-hostname lock-client `release` call. -/
def isRelease : Ev → Bool
  | .release _ => true
  | _ => false

/-- Whether an event is a factory invocation. -/
def isBuild : Ev → Bool
  | .build _ => true
  | _ => false

/-- Events a role teardown can emit: the role-destroyed hook, the optional
`close()` call and the plugin unregistration.  In particular no lock-client
call is role-scoped. -/
def roleScoped : Ev → Bool
  | .roleDestroyed _ => true
  | .close _ => true
  | .unregistered _ => true
  | _ => false

/-- A well-behaved factory handing out fresh controller ids (the id is the
current cache size, so two builds at one location are distinguishable) and
the correct back-reference to the owning location. -/
def freshFactory : Factory :=
  fun loc _ => ⟨loc.roles.length, some loc.locId, "", ("", []), false, false⟩

/-- A contract-violating factory: the returned controller has no
`.location` attribute. -/
def noLocFactory : Factory :=
  fun _ _ => ⟨7, none, "", ("", []), false, false⟩

/-- Role manager registering `freshFactory` under role name `r`. -/
def rmFresh : RoleManager := ⟨[("r", freshFactory)]⟩

/-- Role manager registering the contract-violating factory under `r`. -/
def rmNoLoc : RoleManager := ⟨[("r", noLocFactory)]⟩

/-- An empty location used as a starting state in concrete runs. -/
def loc0 : Location := ⟨"h1", [], [], 0⟩

/-- A controller whose `close()` raises during teardown. -/
def badCtl : Controller := ⟨5, some 3, "r", ("r", []), true, true⟩

/-- A location caching the single controller `badCtl`. -/
def badLoc : Location := ⟨"h1", [], [(("r", []), badCtl)], 3⟩

/-- A manager with a configured lock client and no environment data. -/
def em0 : EnvManager := ⟨"lab1", fun _ => [], true, fun _ _ => false, []⟩

/-- A manager state caching only `badLoc`. -/
def stBad : EnvState := ⟨[("h1", badLoc)], 4⟩

/-- A well-behaved controller cached at `goodLoc`. -/
def goodCtl : Controller := ⟨6, some 3, "r", ("r", []), true, false⟩

/-- Another well-behaved controller cached at `goodLoc`, created second. -/
def goodCtl2 : Controller := ⟨8, some 3, "s", ("s", []), false, false⟩

/-- A location caching `goodCtl` then `goodCtl2`, both closing cleanly. -/
def goodLoc : Location := ⟨"h1", [], [(("r", []), goodCtl), (("s", []), goodCtl2)], 3⟩

/-- A second clean location, created after `goodLoc`. -/
def goodLoc2 : Location := ⟨"h2", [], [], 11⟩

/-- A manager state caching `goodLoc` then `goodLoc2`. -/
def stGood : EnvState := ⟨[("h1", goodLoc), ("h2", goodLoc2)], 12⟩

/-- A stale handle for the hostname of the location cached in `stStale`:
same hostname as the cached object, different identity, one clean role. -/
def staleArg : Location := ⟨"h1", [], [(("r", []), ⟨6, some 9, "r", ("r", []), true, false⟩)], 9⟩

/-- A manager state whose cached location for `h1` is not `staleArg`. -/
def stStale : EnvState := ⟨[("h1", ⟨"h1", [], [], 3⟩)], 10⟩

/-- A manager whose environment hosts `sip-server` on one host and whose
`neverlock` set contains `sip-server`. -/
def emNever : EnvManager :=
  ⟨"lab1", fun r => if r = "sip-server" then [⟨"10.0.0.5", []⟩] else [],
    true, fun _ _ => false, ["sip-server"]⟩

/-- A manager whose lock client times out on every acquisition. -/
def emTimeout : EnvManager := ⟨"lab1", fun _ => [], true, fun _ _ => true, []⟩

/-- The empty manager state. -/
def st0 : EnvState := ⟨[], 0⟩

theorem alookup_eq_none_of_not_mem {α β : Type} [DecidableEq α]
    (l : List (α × β)) (a : α) (h : a ∉ l.map Prod.fst) : alookup l a = none := by
  induction l with
  | nil => rfl
  | cons kv rest ih =>
    simp only [List.map_cons, List.mem_cons, not_or] at h
    have hne : kv.1 ≠ a := fun he => h.1 he.symm
    simp only [alookup, if_neg hne]
    exact ih h.2

theorem alookup_append {α β : Type} [DecidableEq α]
    (l1 l2 : List (α × β)) (a : α) :
    alookup (l1 ++ l2) a = oor (alookup l1 a) (alookup l2 a) := by
  induction l1 with
  | nil => rfl
  | cons kv rest ih =>
    by_cases h : kv.1 = a
    · simp [alookup, h, oor]
    · simp [alookup, h, ih]

theorem alookup_concat_self {α β : Type} [DecidableEq α]
    (l : List (α × β)) (a : α) (b : β) (h : a ∉ l.map Prod.fst) :
    alookup (l ++ [(a, b)]) a = some b := by
  rw [alookup_append, alookup_eq_none_of_not_mem l a h]
  simp [alookup, oor]

theorem apop_concat_self {α β : Type} [DecidableEq α]
    (l : List (α × β)) (a : α) (b : β) (h : a ∉ l.map Prod.fst) :
    apop (l ++ [(a, b)]) a = l := by
  induction l with
  | nil => simp [apop]
  | cons kv rest ih =>
    simp only [List.map_cons, List.mem_cons, not_or] at h
    have hne : kv.1 ≠ a := fun he => h.1 he.symm
    simp only [List.cons_append, apop, if_neg hne, List.append_eq]
    rw [ih h.2]

theorem alookup_aset {α β : Type} [DecidableEq α]
    (l : List (α × β)) (a : α) (b : β) (k : α) :
    alookup (aset l a b) k = if a = k then some b else alookup l k := by
  induction l with
  | nil => simp [aset, alookup]
  | cons kv rest ih =>
    by_cases h : kv.1 = a
    · subst h
      simp only [aset, if_pos rfl]
      by_cases hk : kv.1 = k
      · simp [alookup, hk]
      · simp [alookup, hk]
    · simp only [aset, if_neg h]
      by_cases hk : kv.1 = k
      · have : ¬ a = k := fun he => h (hk.trans he.symm)
        simp [alookup, hk, this]
      · simp [alookup, hk, ih]

theorem dictBeq_iff {α β : Type} [DecidableEq α] [DecidableEq β]
    (d e : List (α × β)) : dictBeq d e = true ↔ DictEq d e := by
  constructor
  · intro h k
    rw [dictBeq, List.all_eq_true] at h
    by_cases h1 : k ∈ d.map Prod.fst
    · exact of_decide_eq_true (h k (List.mem_append_left _ h1))
    · by_cases h2 : k ∈ e.map Prod.fst
      · exact of_decide_eq_true (h k (List.mem_append_right _ h2))
      · rw [alookup_eq_none_of_not_mem d k h1, alookup_eq_none_of_not_mem e k h2]
  · intro h
    rw [dictBeq, List.all_eq_true]
    intro k _
    exact decide_eq_true (h k)

theorem dictUpdate_cons {α β : Type} [DecidableEq α]
    (d : List (α × β)) (kv : α × β) (e : List (α × β)) :
    dictUpdate d (kv :: e) = dictUpdate (aset d kv.1 kv.2) e := rfl

theorem alookup_dictUpdate {α β : Type} [DecidableEq α]
    (d e : List (α × β)) (k : α) (hnd : (e.map Prod.fst).Nodup) :
    alookup (dictUpdate d e) k = oor (alookup e k) (alookup d k) := by
  induction e generalizing d with
  | nil => simp [dictUpdate, alookup, oor]
  | cons kv rest ih =>
    simp only [List.map_cons, List.nodup_cons] at hnd
    rw [dictUpdate_cons, ih _ hnd.2]
    by_cases hk : kv.1 = k
    · subst hk
      rw [alookup_eq_none_of_not_mem rest kv.1 hnd.1]
      simp [alookup, alookup_aset, oor]
    · simp only [alookup, if_neg hk, alookup_aset, if_neg hk]

theorem close_role_ok (ctl : Controller) (h : ctl.closeFails = false) :
    ∃ evs, Location.close_role ctl = (Except.ok (), evs) ∧
      destroyedRoleIds evs = [ctl.id] ∧ destroyedLocIds evs = [] := by
  cases hc : ctl.hasClose
  · refine ⟨[.roleDestroyed ctl.id, .unregistered ctl.id], ?_, ?_, ?_⟩
    · simp [Location.close_role, hc, h]
    · simp [destroyedRoleIds]
    · simp [destroyedLocIds]
  · refine ⟨[.roleDestroyed ctl.id, .close ctl.id, .unregistered ctl.id], ?_, ?_, ?_⟩
    · simp [Location.close_role, hc, h]
    · simp [destroyedRoleIds]
    · simp [destroyedLocIds]

theorem cleanupLoop_ok (h : String) (fc : Facts) (lid : Nat)
    (l : List (RoleKey × Controller))
    (hnd : (l.map Prod.fst).Nodup)
    (hstamp : ∀ kv ∈ l, kv.2.key = kv.1)
    (hclose : ∀ kv ∈ l, kv.2.closeFails = false) :
    ∃ evs, Location.cleanupLoop ⟨h, fc, l, lid⟩ ((l.map Prod.snd).reverse)
        = (Except.ok (), ⟨h, fc, [], lid⟩, evs) ∧
      destroyedRoleIds evs = (l.map fun kv => kv.2.id).reverse ∧
      destroyedLocIds evs = [] := by
  induction l using List.reverseRecOn with
  | nil => exact ⟨[], rfl, rfl, rfl⟩
  | append_singleton l' kv ih =>
    obtain ⟨k, c⟩ := kv
    have hmem : (k, c) ∈ l' ++ [(k, c)] := List.mem_append_right _ (by simp)
    have hkey : c.key = k := hstamp (k, c) hmem
    have hnotmem : k ∉ l'.map Prod.fst := by
      have := hnd
      simp only [List.map_append, List.map_cons, List.map_nil,
        List.nodup_append] at this
      intro hk
      exact this.2.2 hk (by simp)
    have hnd' : (l'.map Prod.fst).Nodup := by
      simp only [List.map_append, List.nodup_append] at hnd
      exact hnd.1
    have hstamp' : ∀ kv ∈ l', kv.2.key = kv.1 :=
      fun kv hkv => hstamp kv (List.mem_append_left _ hkv)
    have hclose' : ∀ kv ∈ l', kv.2.closeFails = false :=
      fun kv hkv => hclose kv (List.mem_append_left _ hkv)
    have hcf : c.closeFails = false := hclose (k, c) hmem
    obtain ⟨cevs, hcr, hcd, hcl⟩ := close_role_ok c hcf
    have hlook : alookup (l' ++ [(k, c)]) c.key = some c := by
      rw [hkey]; exact alookup_concat_self l' k c hnotmem
    have hpop : apop (l' ++ [(k, c)]) c.key = l' := by
      rw [hkey]; exact apop_concat_self l' k c hnotmem
    have hdes : Location.destroy ⟨h, fc, l' ++ [(k, c)], lid⟩ c
        = (Except.ok (), ⟨h, fc, l', lid⟩, cevs) := by
      simp only [Location.destroy, hlook, hpop, hcr]
    obtain ⟨evs', hloop, hrd, hld⟩ := ih hnd' hstamp' hclose'
    have hrev : ((l' ++ [(k, c)]).map Prod.snd).reverse
        = c :: (l'.map Prod.snd).reverse := by
      simp
    refine ⟨cevs ++ evs', ?_, ?_, ?_⟩
    · rw [hrev]
      simp only [Location.cleanupLoop, hdes, hloop]
    · simp only [destroyedRoleIds, List.filterMap_append] at hcd hrd ⊢
      rw [hcd, hrd]
      simp
    · simp only [destroyedLocIds, List.filterMap_append] at hcl hld ⊢
      rw [hcl, hld]
      rfl

theorem cleanup_ok (loc : Location)
    (hnd : (loc.roles.map Prod.fst).Nodup)
    (hstamp : ∀ kv ∈ loc.roles, kv.2.key = kv.1)
    (hclose : ∀ kv ∈ loc.roles, kv.2.closeFails = false) :
    ∃ evs, Location.cleanup loc
        = (Except.ok (), { loc with roles := [] }, evs) ∧
      destroyedRoleIds evs = (loc.roles.map fun kv => kv.2.id).reverse ∧
      destroyedLocIds evs = [] := by
  obtain ⟨h, fc, l, lid⟩ := loc
  obtain ⟨evs, hloop, hrd, hld⟩ := cleanupLoop_ok h fc lid l hnd hstamp hclose
  refine ⟨evs, ?_, hrd, hld⟩
  simp only [Location.cleanup, hloop, List.isEmpty_nil, if_pos]

theorem destroy_location_ok (em : EnvManager) (st : EnvState)
    (location loc : Location)
    (hlook : alookup st.locations location.hostname = some loc)
    (hnd : (location.roles.map Prod.fst).Nodup)
    (hstamp : ∀ kv ∈ location.roles, kv.2.key = kv.1)
    (hclose : ∀ kv ∈ location.roles, kv.2.closeFails = false) :
    ∃ cevs, EnvManager.destroy em st location
        = (Except.ok (),
           { st with locations := apop st.locations location.hostname },
           (if loc.locId = location.locId then []
            else [Ev.warnUnknownLocation location.locId]) ++ cevs ++
           (Ev.locationDestroyed location.locId ::
            (if em.hasLocker then [Ev.release loc.hostname] else []))) ∧
      destroyedRoleIds cevs = (location.roles.map fun kv => kv.2.id).reverse ∧
      destroyedLocIds cevs = [] := by
  obtain ⟨cevs, hcl, hrd, hld⟩ := cleanup_ok location hnd hstamp hclose
  refine ⟨cevs, ?_, hrd, hld⟩
  cases hl : em.hasLocker <;>
    simp only [EnvManager.destroy, hlook, hcl, hl, Bool.false_eq_true, if_false,
      if_true, List.append_assoc, List.singleton_append, List.append_nil]

theorem env_cleanupLoop_ok (em : EnvManager) (nid : Nat)
    (locs : List (String × Location))
    (hnd : (locs.map Prod.fst).Nodup)
    (hstamp : ∀ kv ∈ locs, kv.2.hostname = kv.1)
    (hclean : ∀ kv ∈ locs, (kv.2.roles.map Prod.fst).Nodup ∧
      (∀ rc ∈ kv.2.roles, rc.2.key = rc.1) ∧
      (∀ rc ∈ kv.2.roles, rc.2.closeFails = false)) :
    ∃ evs, EnvManager.cleanupLoop em ⟨locs, nid⟩ ((locs.map Prod.snd).reverse)
        = (Except.ok (), ⟨[], nid⟩, evs) ∧
      destroyedLocIds evs = (locs.map fun kv => kv.2.locId).reverse := by
  induction locs using List.reverseRecOn with
  | nil => exact ⟨[], rfl, rfl⟩
  | append_singleton l' kv ih =>
    obtain ⟨k, loc⟩ := kv
    have hmem : (k, loc) ∈ l' ++ [(k, loc)] := List.mem_append_right _ (by simp)
    have hhost : loc.hostname = k := hstamp (k, loc) hmem
    have hnotmem : k ∉ l'.map Prod.fst := by
      have := hnd
      simp only [List.map_append, List.map_cons, List.map_nil,
        List.nodup_append] at this
      intro hk
      exact this.2.2 hk (by simp)
    have hnd2 : (l'.map Prod.fst).Nodup := by
      simp only [List.map_append, List.nodup_append] at hnd
      exact hnd.1
    have hstamp' : ∀ kv ∈ l', kv.2.hostname = kv.1 :=
      fun kv hkv => hstamp kv (List.mem_append_left _ hkv)
    have hclean' : ∀ kv ∈ l', (kv.2.roles.map Prod.fst).Nodup ∧
        (∀ rc ∈ kv.2.roles, rc.2.key = rc.1) ∧
        (∀ rc ∈ kv.2.roles, rc.2.closeFails = false) :=
      fun kv hkv => hclean kv (List.mem_append_left _ hkv)
    obtain ⟨hcn, hcs, hcc⟩ := hclean (k, loc) hmem
    have hlook : alookup (l' ++ [(k, loc)]) loc.hostname = some loc := by
      rw [hhost]; exact alookup_concat_self l' k loc hnotmem
    have hpop : apop (l' ++ [(k, loc)]) loc.hostname = l' := by
      rw [hhost]; exact apop_concat_self l' k loc hnotmem
    obtain ⟨cevs, hdes, _, hld⟩ :=
      destroy_location_ok em ⟨l' ++ [(k, loc)], nid⟩ loc loc hlook hcn hcs hcc
    rw [if_pos rfl] at hdes
    obtain ⟨evs', hloop, hld'⟩ := ih hnd2 hstamp' hclean'
    have hrev : ((l' ++ [(k, loc)]).map Prod.snd).reverse
        = loc :: (l'.map Prod.snd).reverse := by
      simp
    refine ⟨(cevs ++ (Ev.locationDestroyed loc.locId ::
      (if em.hasLocker then [Ev.release loc.hostname] else []))) ++ evs', ?_, ?_⟩
    · rw [hrev]
      simp only [EnvManager.cleanupLoop, hdes, List.nil_append, hpop, hloop]
    · cases hl : em.hasLocker <;>
        simp only [hl, Bool.false_eq_true, if_false, if_true] <;>
        · simp only [destroyedLocIds, List.filterMap_append] at hld hld' ⊢
          rw [hld, hld']
          simp [destroyedLocIds]

theorem close_role_roleScoped (ctl : Controller) :
    ∀ e ∈ (Location.close_role ctl).2, roleScoped e = true := by
  cases h1 : ctl.hasClose <;> cases h2 : ctl.closeFails <;>
    simp [Location.close_role, h1, h2, roleScoped]

theorem destroy_roleScoped (loc : Location) (ctl : Controller) :
    ∀ e ∈ (Location.destroy loc ctl).2.2, roleScoped e = true := by
  unfold Location.destroy
  cases hlk : alookup loc.roles ctl.key with
  | none => simp
  | some r =>
    rcases hcr : Location.close_role r with ⟨res, evs⟩
    have h := close_role_roleScoped r
    rw [hcr] at h
    simp only [hcr]
    simpa using h

theorem loc_cleanupLoop_roleScoped (loc : Location) (cs : List Controller) :
    ∀ e ∈ (Location.cleanupLoop loc cs).2.2, roleScoped e = true := by
  induction cs generalizing loc with
  | nil => simp [Location.cleanupLoop]
  | cons c rest ih =>
    simp only [Location.cleanupLoop]
    rcases hdes : Location.destroy loc c with ⟨res, loc1, evs⟩
    have h1 := destroy_roleScoped loc c
    rw [hdes] at h1
    simp only at h1
    cases res with
    | error e => simp only [hdes]; simpa using h1
    | ok _ =>
      rcases hloop : Location.cleanupLoop loc1 rest with ⟨r2, loc2, evs2⟩
      have h2 := ih loc1
      rw [hloop] at h2
      simp only at h2
      simp only [hdes, hloop, List.mem_append]
      intro e he
      rcases he with he | he
      · exact h1 e he
      · exact h2 e he

theorem loc_cleanup_roleScoped (loc : Location) :
    ∀ e ∈ (Location.cleanup loc).2.2, roleScoped e = true := by
  unfold Location.cleanup
  rcases hloop : Location.cleanupLoop loc ((loc.roles.map Prod.snd).reverse)
    with ⟨res, loc1, evs⟩
  have h1 := loc_cleanupLoop_roleScoped loc ((loc.roles.map Prod.snd).reverse)
  rw [hloop] at h1
  simp only at h1
  cases res with
  | error e => simpa using h1
  | ok _ =>
    by_cases he : loc1.roles.isEmpty <;> simp [he] <;> simpa using h1

theorem loc_cleanup_no_releaseAll (loc : Location) :
    Ev.releaseAll ∉ (Location.cleanup loc).2.2 := by
  intro hmem
  have := loc_cleanup_roleScoped loc Ev.releaseAll hmem
  simp [roleScoped] at this

theorem env_destroy_no_releaseAll (em : EnvManager) (st : EnvState)
    (location : Location) :
    Ev.releaseAll ∉ (EnvManager.destroy em st location).2.2 := by
  unfold EnvManager.destroy
  cases hlk : alookup st.locations location.hostname with
  | none => simp
  | some loc =>
    rcases hcl : Location.cleanup location with ⟨res, loc1, evs⟩
    have h1 := loc_cleanup_no_releaseAll location
    rw [hcl] at h1
    simp only at h1
    simp only [hcl]
    cases res with
    | error e =>
      by_cases hw : loc.locId = location.locId <;> simp [hw, h1]
    | ok _ =>
      by_cases hw : loc.locId = location.locId <;>
        cases hl : em.hasLocker <;> simp [hw, hl, h1]

theorem env_cleanupLoop_no_releaseAll (em : EnvManager) (st : EnvState)
    (ls : List Location) :
    Ev.releaseAll ∉ (EnvManager.cleanupLoop em st ls).2.2 := by
  induction ls generalizing st with
  | nil => simp [EnvManager.cleanupLoop]
  | cons l rest ih =>
    simp only [EnvManager.cleanupLoop]
    rcases hdes : EnvManager.destroy em st l with ⟨res, st1, evs⟩
    have h1 := env_destroy_no_releaseAll em st l
    rw [hdes] at h1
    simp only at h1
    cases res with
    | error e => simp only [hdes]; simpa using h1
    | ok _ =>
      rcases hloop : EnvManager.cleanupLoop em st1 rest with ⟨r2, st2, evs2⟩
      have h2 := ih st1
      rw [hloop] at h2
      simp only at h2
      simp only [hdes, hloop, List.mem_append, not_or]
      exact ⟨h1, h2⟩

theorem isRelease_eq_false_of_roleScoped (e : Ev) (h : roleScoped e = true) :
    isRelease e = false := by
  cases e <;> simp_all [roleScoped, isRelease]

/-- C4: with a configured lock client, `EnvManager.cleanup` invokes the
lock client's bulk release exactly once on exit — whether or not the
destroy loop raised — and the loop's outcome (in particular its original
error, if any) still propagates, the bulk release being the last event. -/
theorem cleanup_bulk_release_exactly_once (em : EnvManager) (st : EnvState)
    (hl : em.hasLocker = true) :
    (EnvManager.cleanup em st).2.2.count Ev.releaseAll = 1 ∧
    (EnvManager.cleanup em st).1
      = (EnvManager.cleanupLoop em st ((st.locations.map Prod.snd).reverse)).1 ∧
    (EnvManager.cleanup em st).2.2
      = (EnvManager.cleanupLoop em st ((st.locations.map Prod.snd).reverse)).2.2
        ++ [Ev.releaseAll] := by
  rcases hloop : EnvManager.cleanupLoop em st ((st.locations.map Prod.snd).reverse)
    with ⟨res, st1, evs⟩
  have h0 := env_cleanupLoop_no_releaseAll em st ((st.locations.map Prod.snd).reverse)
  rw [hloop] at h0
  simp only at h0
  have hc : evs.count Ev.releaseAll = 0 := List.count_eq_zero.mpr h0
  unfold EnvManager.cleanup
  rw [hloop]
  simp only [hl, if_true]
  refine ⟨?_, by trivial, by trivial⟩
  rw [List.count_append, hc]
  rfl

theorem cleanup_bulk_release_exactly_once_witness :
    (EnvManager.cleanup em0 stBad).2.2.count Ev.releaseAll = 1 :=
  (cleanup_bulk_release_exactly_once em0 stBad rfl).1

/-- C8: teardown is strictly LIFO at both levels: `Location.cleanup`
destroys the cached controllers in reverse creation order and leaves the
role cache empty (returning normally with a non-empty cache is impossible:
the trailing assertion turns it into an error), and `EnvManager.cleanup`
destroys the managed locations in reverse creation order. -/
theorem cleanup_lifo_both_levels (loc : Location) (em : EnvManager) (st : EnvState)
    (hnd : (loc.roles.map Prod.fst).Nodup)
    (hstamp : ∀ kv ∈ loc.roles, kv.2.key = kv.1)
    (hclose : ∀ kv ∈ loc.roles, kv.2.closeFails = false)
    (hnd2 : (st.locations.map Prod.fst).Nodup)
    (hstamp2 : ∀ kv ∈ st.locations, kv.2.hostname = kv.1)
    (hclean2 : ∀ kv ∈ st.locations, (kv.2.roles.map Prod.fst).Nodup ∧
      (∀ rc ∈ kv.2.roles, rc.2.key = rc.1) ∧
      (∀ rc ∈ kv.2.roles, rc.2.closeFails = false)) :
    ((Location.cleanup loc).1 = Except.ok () ∧
     ((Location.cleanup loc).2.1).roles = [] ∧
     destroyedRoleIds (Location.cleanup loc).2.2
       = (loc.roles.map fun kv => kv.2.id).reverse) ∧
    (∀ l' : Location, (Location.cleanup l').1 = Except.ok () →
      ((Location.cleanup l').2.1).roles = []) ∧
    ((EnvManager.cleanup em st).1 = Except.ok () ∧
     ((EnvManager.cleanup em st).2.1).locations = [] ∧
     destroyedLocIds (EnvManager.cleanup em st).2.2
       = (st.locations.map fun kv => kv.2.locId).reverse) := by
  obtain ⟨locs, nid⟩ := st
  refine ⟨?_, ?_, ?_⟩
  · obtain ⟨evs, heq, hrd, _⟩ := cleanup_ok loc hnd hstamp hclose
    rw [heq]
    exact ⟨rfl, rfl, hrd⟩
  · intro l' hok
    unfold Location.cleanup at hok ⊢
    rcases hloop : Location.cleanupLoop l' ((l'.roles.map Prod.snd).reverse)
      with ⟨res, loc1, evs⟩
    rw [hloop] at hok
    cases res with
    | error e => simp at hok
    | ok _ =>
      cases hemp : loc1.roles with
      | nil => simp [hemp]
      | cons a as => simp [hemp] at hok
  · obtain ⟨evs, hloop, hld⟩ :=
      env_cleanupLoop_ok em nid locs hnd2 hstamp2 hclean2
    unfold EnvManager.cleanup
    rw [hloop]
    cases hl : em.hasLocker
    · simpa using hld
    · simp only [if_pos trivial]
      refine ⟨trivial, trivial, ?_⟩
      have happ : destroyedLocIds (evs ++ [Ev.releaseAll])
          = destroyedLocIds evs := by
        simp [destroyedLocIds]
      rw [happ]
      exact hld

theorem cleanup_lifo_both_levels_witness :
    destroyedLocIds (EnvManager.cleanup em0 stGood).2.2 = [11, 3] :=
  ((cleanup_lifo_both_levels goodLoc em0 stGood (by decide) (by decide)
    (by decide) (by decide) (by decide) (by decide)).2.2.2.2).trans (by decide)

/-- C3 counterexample: `em0` has a lock client configured, `badLoc` is a
managed location whose role teardown raises, yet `EnvManager.destroy`
propagates the cleanup error without a single per-hostname lock release —
the claimed unconditional release after a failed cleanup does not happen. -/
theorem destroy_release_skipped_counterexample :
    em0.hasLocker = true ∧
    (EnvManager.destroy em0 stBad badLoc).1 = Except.error (Err.closeError 5) ∧
    (EnvManager.destroy em0 stBad badLoc).2.2.countP isRelease = 0 := by
  decide

/-- C3 amended: in `EnvManager.destroy` the lock release for the hostname
runs only after a cleanup that returned normally; when `location.cleanup()`
raises, the error propagates and no per-hostname release is attempted. -/
theorem destroy_release_only_after_clean_cleanup (em : EnvManager)
    (st : EnvState) (location loc : Location)
    (hlook : alookup st.locations location.hostname = some loc)
    (hl : em.hasLocker = true) :
    (∀ l1 evs, Location.cleanup location = (Except.ok (), l1, evs) →
      (EnvManager.destroy em st location).1 = Except.ok () ∧
      Ev.release loc.hostname ∈ (EnvManager.destroy em st location).2.2) ∧
    (∀ e l1 evs, Location.cleanup location = (Except.error e, l1, evs) →
      (EnvManager.destroy em st location).1 = Except.error e ∧
      (EnvManager.destroy em st location).2.2.countP isRelease = 0) := by
  constructor
  · intro l1 evs hcl
    simp only [EnvManager.destroy, hlook, hcl, hl, if_pos rfl]
    exact ⟨by simp, by simp⟩
  · intro e l1 evs hcl
    simp only [EnvManager.destroy, hlook, hcl]
    have hrs := loc_cleanup_roleScoped location
    rw [hcl] at hrs
    simp only at hrs
    have hz : evs.countP isRelease = 0 := by
      rw [List.countP_eq_zero]
      intro a ha
      simp [isRelease_eq_false_of_roleScoped a (hrs a ha)]
    constructor
    · trivial
    · rw [List.countP_append, hz]
      by_cases hw : loc.locId = location.locId <;> simp [hw, isRelease]

theorem destroy_release_only_after_clean_cleanup_witness :
    (EnvManager.destroy em0 stBad badLoc).1 = Except.error (Err.closeError 5) ∧
    (EnvManager.destroy em0 stBad badLoc).2.2.countP isRelease = 0 :=
  (destroy_release_only_after_clean_cleanup em0 stBad badLoc badLoc
    (by decide) rfl).2 (Err.closeError 5) ⟨"h1", [], [], 3⟩
    [Ev.roleDestroyed 5, Ev.close 5] (by decide)

theorem manageAll_cons_ok_ne_nil (em : EnvManager) (st : EnvState) (d : Descriptor)
    (rest : List Descriptor) (lock : Bool) (t : Option Nat) (locs : List Location)
    (h : (EnvManager.manageAll em st (d :: rest) lock t).1 = Except.ok locs) :
    locs ≠ [] := by
  simp only [EnvManager.manageAll] at h
  rcases hm : EnvManager.manage em st d.name d.facts lock t with ⟨res, st1, evs⟩
  rw [hm] at h
  cases res with
  | error e => simp at h
  | ok loc =>
    rcases hall : EnvManager.manageAll em st1 rest lock t with ⟨r2, st2, evs2⟩
    simp only [hall] at h
    cases r2 with
    | error e => simp at h
    | ok locs2 =>
      simp at h
      rw [← h]
      simp

/-- C6: when the environment snapshot has no descriptors for the requested
role, `get_locations` raises `EquipmentLookupError` whose message names
both the role and the environment name; and a normal return is never the
empty list. -/
theorem get_locations_unknown_role (em : EnvManager) (st : EnvState)
    (rolename : String) (timeout : Option Nat) :
    (em.envGet rolename = [] →
      (EnvManager.get_locations em st rolename timeout).1
        = Except.error (.equipmentLookup (errMsg rolename em.name)) ∧
      ∃ p m s, errMsg rolename em.name
        = p ++ (rolename ++ (m ++ (em.name ++ s)))) ∧
    (∀ locs, (EnvManager.get_locations em st rolename timeout).1
        = Except.ok locs → locs ≠ []) := by
  constructor
  · intro hempty
    refine ⟨?_, "\x27", "\x27 not found in environment \x27",
      "\x27\nDid you pass the wrong environment name with --env=NAME ?", rfl⟩
    simp [EnvManager.get_locations, hempty]
  · intro locs hok
    unfold EnvManager.get_locations at hok
    cases hge : em.envGet rolename with
    | nil => rw [hge] at hok; simp at hok
    | cons d rest =>
      rw [hge] at hok
      simp only [List.isEmpty_cons, Bool.false_eq_true, if_false] at hok
      exact manageAll_cons_ok_ne_nil em st d rest _ timeout locs hok

theorem get_locations_unknown_role_witness :
    (EnvManager.get_locations em0 st0 "dut" none).1
      = Except.error (Err.equipmentLookup (errMsg "dut" "lab1")) :=
  ((get_locations_unknown_role em0 st0 "dut" none).1 rfl).1

theorem manage_unlocked_no_events (em : EnvManager) (st : EnvState) (h : String)
    (f : Facts) (t : Option Nat) :
    (EnvManager.manage em st h f false t).2.2 = [] := by
  unfold EnvManager.manage
  cases hlk : alookup st.locations h with
  | some location =>
    by_cases hc : (!f.isEmpty && !dictBeq location.facts f) = true
    · simp [hc]
    · simp [hc]
  | none => simp

theorem manageAll_unlocked_no_events (em : EnvManager) (st : EnvState)
    (ds : List Descriptor) (t : Option Nat) :
    (EnvManager.manageAll em st ds false t).2.2 = [] := by
  induction ds generalizing st with
  | nil => rfl
  | cons d rest ih =>
    simp only [EnvManager.manageAll]
    rcases hm : EnvManager.manage em st d.name d.facts false t with ⟨res, st1, evs⟩
    have he := manage_unlocked_no_events em st d.name d.facts t
    rw [hm] at he
    simp only at he
    subst he
    cases res with
    | error e => simp
    | ok loc =>
      rcases hall : EnvManager.manageAll em st1 rest false t with ⟨r2, st2, evs2⟩
      have h2 := ih st1
      rw [hall] at h2
      simp only at h2
      subst h2
      simp only [hall]
      cases r2 <;> simp

/-- C7: for a role contained in the neverlock set, `get_locations` performs
zero lock acquisitions, and the lock flag it hands to `manage` is exactly
the value of `rolename not in neverlock`. -/
theorem get_locations_neverlock_no_acquire (em : EnvManager) (st : EnvState)
    (rolename : String) (timeout : Option Nat)
    (hmem : rolename ∈ em.neverlock) :
    (EnvManager.get_locations em st rolename timeout).2.2.countP isAcquire = 0 ∧
    (em.envGet rolename ≠ [] →
      EnvManager.get_locations em st rolename timeout
        = EnvManager.manageAll em st (em.envGet rolename)
            (!decide (rolename ∈ em.neverlock)) timeout ∧
      (!decide (rolename ∈ em.neverlock)) = false) := by
  have hflag : (!decide (rolename ∈ em.neverlock)) = false := by simp [hmem]
  constructor
  · unfold EnvManager.get_locations
    cases hge : em.envGet rolename with
    | nil => simp
    | cons d rest =>
      simp only [List.isEmpty_cons, Bool.false_eq_true, if_false, hflag]
      rw [manageAll_unlocked_no_events]
      rfl
  · intro hne
    refine ⟨?_, hflag⟩
    unfold EnvManager.get_locations
    cases hge : em.envGet rolename with
    | nil => exact absurd hge hne
    | cons d rest => simp [List.isEmpty_cons]

theorem get_locations_neverlock_no_acquire_witness :
    (EnvManager.get_locations emNever st0 "sip-server" none).2.2.countP isAcquire
      = 0 :=
  (get_locations_neverlock_no_acquire emNever st0 "sip-server" none (by decide)).1

theorem not_mem_of_alookup_eq_none {α β : Type} [DecidableEq α]
    (l : List (α × β)) (a : α) (h : alookup l a = none) :
    a ∉ l.map Prod.fst := by
  induction l with
  | nil => simp
  | cons kv rest ih =>
    simp only [alookup] at h
    by_cases hk : kv.1 = a
    · rw [if_pos hk] at h
      exact absurd h (by simp)
    · rw [if_neg hk] at h
      simp only [List.map_cons, List.mem_cons, not_or]
      exact ⟨fun he => hk he.symm, ih h⟩

theorem manage_fresh_ok (em : EnvManager) (st : EnvState) (h : String)
    (f : Facts) (lock : Bool) (t : Option Nat)
    (hfresh : alookup st.locations h = none)
    (hok : ∃ loc, (EnvManager.manage em st h f lock t).1 = Except.ok loc) :
    (EnvManager.manage em st h f lock t).1
      = Except.ok ⟨h, f, [], st.nextId⟩ ∧
    (EnvManager.manage em st h f lock t).2.1
      = ⟨st.locations ++ [(h, ⟨h, f, [], st.nextId⟩)], st.nextId + 1⟩ := by
  obtain ⟨loc, hok⟩ := hok
  by_cases hb : (lock && em.hasLocker) = true
  · by_cases hf : em.lockFails h t = true
    · simp only [EnvManager.manage, hfresh, hb, if_true, hf] at hok
      exact absurd hok (by simp)
    · simp only [EnvManager.manage, hfresh, hb, if_true, hf]
      exact ⟨by simp, by simp⟩
  · simp only [EnvManager.manage, hfresh, hb]
    exact ⟨by simp, by simp⟩

/-- C5: managing the same hostname twice returns the same location object
both times; the facts end up merge-updated (`f1` updated by `f2`, keys of
`f1` absent from `f2` retained); the second call emits no lock acquisition
and its lock/timeout arguments do not affect the result. -/
theorem manage_idempotent_merge (em : EnvManager) (st : EnvState) (h : String)
    (f1 f2 : Facts) (lock1 : Bool) (t1 : Option Nat)
    (hfresh : alookup st.locations h = none)
    (hnd2 : (f2.map Prod.fst).Nodup)
    (hok : ∃ loc, (EnvManager.manage em st h f1 lock1 t1).1 = Except.ok loc) :
    ∃ loc1 loc2,
      (EnvManager.manage em st h f1 lock1 t1).1 = Except.ok loc1 ∧
      (∀ lock2 t2,
        (EnvManager.manage em (EnvManager.manage em st h f1 lock1 t1).2.1
            h f2 lock2 t2).1 = Except.ok loc2 ∧
        (EnvManager.manage em (EnvManager.manage em st h f1 lock1 t1).2.1
            h f2 lock2 t2).2.2 = [] ∧
        alookup ((EnvManager.manage em (EnvManager.manage em st h f1 lock1 t1).2.1
            h f2 lock2 t2).2.1).locations h = some loc2) ∧
      loc2.locId = loc1.locId ∧
      loc2.hostname = loc1.hostname ∧
      DictEq loc2.facts (dictUpdate f1 f2) ∧
      (∀ lock2 t2 lock3 t3,
        EnvManager.manage em (EnvManager.manage em st h f1 lock1 t1).2.1
            h f2 lock2 t2
          = EnvManager.manage em (EnvManager.manage em st h f1 lock1 t1).2.1
            h f2 lock3 t3) := by
  obtain ⟨hres1, hst1⟩ := manage_fresh_ok em st h f1 lock1 t1 hfresh hok
  rw [hst1]
  have hnotm := not_mem_of_alookup_eq_none st.locations h hfresh
  have hlk2 : alookup (st.locations ++ [(h, (⟨h, f1, [], st.nextId⟩ : Location))]) h
      = some ⟨h, f1, [], st.nextId⟩ := alookup_concat_self _ _ _ hnotm
  by_cases hc : (!f2.isEmpty && !dictBeq f1 f2) = true
  · refine ⟨⟨h, f1, [], st.nextId⟩, ⟨h, dictUpdate f1 f2, [], st.nextId⟩,
      hres1, ?_, rfl, rfl, fun k => rfl, ?_⟩
    · intro lock2 t2
      refine ⟨?_, ?_, ?_⟩ <;>
        simp [EnvManager.manage, hlk2, hc, alookup_aset]
    · intro lock2 t2 lock3 t3
      simp only [EnvManager.manage, hlk2]
  · have hc3 : (!f2.isEmpty && !dictBeq f1 f2) = false := Bool.eq_false_iff.mpr hc
    refine ⟨⟨h, f1, [], st.nextId⟩, ⟨h, f1, [], st.nextId⟩,
      hres1, ?_, rfl, rfl, ?_, ?_⟩
    · intro lock2 t2
      refine ⟨?_, ?_, ?_⟩ <;> simp [EnvManager.manage, hlk2, hc3]
    · have hc2 : f2.isEmpty = true ∨ dictBeq f1 f2 = true := by
        have hsplit : ∀ a b : Bool, (!a && !b) = false → a = true ∨ b = true := by
          decide
        exact hsplit _ _ hc3
      rcases hc2 with hc2 | hc2
      · have hf2 : f2 = [] := List.isEmpty_iff.mp hc2
        subst hf2
        exact fun k => rfl
      · have hd := (dictBeq_iff f1 f2).mp hc2
        intro k
        show alookup f1 k = alookup (dictUpdate f1 f2) k
        rw [alookup_dictUpdate f1 f2 k hnd2]
        cases he : alookup f2 k with
        | none => simp [oor]
        | some v =>
          have hv := hd k
          rw [he] at hv
          simp [oor, hv]
    · intro lock2 t2 lock3 t3
      simp only [EnvManager.manage, hlk2]

theorem manage_idempotent_merge_witness :
    ∃ loc1 loc2 : Location,
      (EnvManager.manage em0 st0 "h" [("a", "1"), ("b", "2")] true none).1
        = Except.ok loc1 ∧
      loc2.locId = loc1.locId ∧
      DictEq loc2.facts
        (dictUpdate [("a", "1"), ("b", "2")] [("b", "3"), ("c", "4")]) := by
  obtain ⟨l1, l2, h1, _, h3, _, h5, _⟩ :=
    manage_idempotent_merge em0 st0 "h" [("a", "1"), ("b", "2")]
      [("b", "3"), ("c", "4")] true none rfl (by decide)
      ⟨⟨"h", [("a", "1"), ("b", "2")], [], 0⟩, by decide⟩
  exact ⟨l1, l2, h1, h3, h5⟩

/-- C9: `manage` is not atomic on lock failure: when the lock acquisition
for a fresh hostname raises, the newly created location has already been
inserted in the cache and stays there; a later `manage` of the same
hostname returns that location with no further acquisition attempt. -/
theorem manage_lock_failure_leaves_cache (em : EnvManager) (st : EnvState)
    (h : String) (f : Facts) (t : Option Nat)
    (hfresh : alookup st.locations h = none)
    (hl : em.hasLocker = true)
    (hf : em.lockFails h t = true) :
    (EnvManager.manage em st h f true t).1 = Except.error (.lockTimeout h) ∧
    (EnvManager.manage em st h f true t).2.2 = [Ev.acquire h] ∧
    alookup ((EnvManager.manage em st h f true t).2.1).locations h
      = some ⟨h, f, [], st.nextId⟩ ∧
    (∀ f2 lock2 t2,
      (EnvManager.manage em (EnvManager.manage em st h f true t).2.1
          h f2 lock2 t2).2.2 = [] ∧
      ∃ loc2, (EnvManager.manage em (EnvManager.manage em st h f true t).2.1
          h f2 lock2 t2).1 = Except.ok loc2 ∧ loc2.locId = st.nextId) := by
  have hm : EnvManager.manage em st h f true t
      = (Except.error (.lockTimeout h),
         ⟨st.locations ++ [(h, ⟨h, f, [], st.nextId⟩)], st.nextId + 1⟩,
         [Ev.acquire h]) := by
    simp [EnvManager.manage, hfresh, hl, hf]
  rw [hm]
  have hlk2 : alookup (st.locations ++ [(h, (⟨h, f, [], st.nextId⟩ : Location))]) h
      = some ⟨h, f, [], st.nextId⟩ :=
    alookup_concat_self _ _ _ (not_mem_of_alookup_eq_none _ _ hfresh)
  refine ⟨rfl, rfl, hlk2, ?_⟩
  intro f2 lock2 t2
  by_cases hc : (!f2.isEmpty && !dictBeq f f2) = true
  · refine ⟨by simp [EnvManager.manage, hlk2, hc],
      ⟨h, dictUpdate f f2, [], st.nextId⟩,
      by simp [EnvManager.manage, hlk2, hc], rfl⟩
  · have hc3 : (!f2.isEmpty && !dictBeq f f2) = false := Bool.eq_false_iff.mpr hc
    refine ⟨by simp [EnvManager.manage, hlk2, hc3],
      ⟨h, f, [], st.nextId⟩,
      by simp [EnvManager.manage, hlk2, hc3], rfl⟩

theorem manage_lock_failure_leaves_cache_witness :
    (EnvManager.manage emTimeout st0 "h" [] true none).1
      = Except.error (Err.lockTimeout "h") ∧
    alookup ((EnvManager.manage emTimeout st0 "h" [] true none).2.1).locations "h"
      = some ⟨"h", [], [], 0⟩ :=
  ⟨(manage_lock_failure_leaves_cache emTimeout st0 "h" [] none rfl rfl rfl).1,
   (manage_lock_failure_leaves_cache emTimeout st0 "h" [] none rfl rfl rfl).2.2.1⟩

/-- C10: `EnvManager.destroy` keys on the argument hostname, not object
identity: a stale handle whose hostname matches a managed entry removes
that entry from the cache, has *its own* controllers cleaned up and its
own identity in the location-destroyed notification, releases the lock of
that hostname, and the identity mismatch yields only a warning event. -/
theorem destroy_by_hostname_not_identity (em : EnvManager) (st : EnvState)
    (location loc : Location)
    (hlook : alookup st.locations location.hostname = some loc)
    (hhost : loc.hostname = location.hostname)
    (hne : loc.locId ≠ location.locId)
    (hl : em.hasLocker = true)
    (hnd : (location.roles.map Prod.fst).Nodup)
    (hstamp : ∀ kv ∈ location.roles, kv.2.key = kv.1)
    (hclose : ∀ kv ∈ location.roles, kv.2.closeFails = false) :
    ∃ cevs,
      EnvManager.destroy em st location
        = (Except.ok (),
           { st with locations := apop st.locations location.hostname },
           Ev.warnUnknownLocation location.locId :: cevs ++
             [Ev.locationDestroyed location.locId,
              Ev.release location.hostname]) ∧
      Location.cleanup location
        = (Except.ok (), { location with roles := [] }, cevs) ∧
      destroyedRoleIds cevs = (location.roles.map fun kv => kv.2.id).reverse := by
  obtain ⟨cevs, hcl, hrd, _⟩ := cleanup_ok location hnd hstamp hclose
  refine ⟨cevs, ?_, hcl, hrd⟩
  simp only [EnvManager.destroy, hlook, hcl, hl, if_pos rfl, if_neg hne, hhost]
  simp

theorem destroy_by_hostname_not_identity_witness :
    (EnvManager.destroy em0 stStale staleArg).1 = Except.ok () ∧
    alookup ((EnvManager.destroy em0 stStale staleArg).2.1).locations "h1"
      = none := by
  obtain ⟨cevs, hd, _, _⟩ :=
    destroy_by_hostname_not_identity em0 stStale staleArg ⟨"h1", [], [], 3⟩
      (by decide) rfl (by decide) rfl (by decide) (by decide) (by decide)
  rw [hd]
  refine ⟨rfl, ?_⟩
  show alookup (apop stStale.locations staleArg.hostname) "h1" = none
  decide

/-- C1 counterexample: a factory returning a controller without a
`location` attribute makes `role()` raise the contract-violation error, as
claimed — but the controller *is* present in the role cache afterwards,
refuting the claim that it is not cached. -/
theorem role_contract_violation_counterexample :
    (Location.role rmNoLoc loc0 "r" []).1 = Except.error (Err.attributeError 7) ∧
    alookup ((Location.role rmNoLoc loc0 "r" []).2.1).roles ("r", []) ≠ none := by
  decide

/-- C1 amended: a factory whose controller lacks a `location` attribute or
reports one not identical to the owning location makes `role()` raise a
contract-violation error, but the controller has already been stored and
remains in the role cache after the call. -/
theorem role_contract_violation_cached (rm : RoleManager) (loc : Location)
    (name : String) (kwargs : Kwargs) (f : Factory)
    (hmiss : alookup loc.roles (name, kwargs) = none)
    (hf : alookup rm.roles2factories name = some f)
    (hbad : (f loc kwargs).location ≠ some loc.locId) :
    (∃ e, (Location.role rm loc name kwargs).1 = Except.error e) ∧
    alookup ((Location.role rm loc name kwargs).2.1).roles (name, kwargs)
      = some { f loc kwargs with name := name, key := (name, kwargs) } := by
  have hb : RoleManager.build rm name loc kwargs
      = Except.ok { f loc kwargs with name := name } := by
    simp [RoleManager.build, hf]
  cases hloc : (f loc kwargs).location with
  | none =>
    constructor
    · exact ⟨.attributeError (f loc kwargs).id,
        by simp [Location.role, hmiss, hb, hloc]⟩
    · simp only [Location.role, hmiss, hb, hloc]
      rw [alookup_append, hmiss]
      simp [alookup, oor, hloc]
  | some l =>
    have hlne : l ≠ loc.locId := fun he => hbad (by rw [hloc, he])
    constructor
    · exact ⟨.assertionError (f loc kwargs).id,
        by simp [Location.role, hmiss, hb, hloc, hlne]⟩
    · simp only [Location.role, hmiss, hb, hloc, if_neg hlne]
      rw [alookup_append, hmiss]
      simp [alookup, oor, hloc, hlne]

theorem role_contract_violation_cached_witness :
    (∃ e, (Location.role rmNoLoc loc0 "r" []).1 = Except.error e) ∧
    alookup ((Location.role rmNoLoc loc0 "r" []).2.1).roles ("r", [])
      = some { noLocFactory loc0 [] with name := "r", key := ("r", []) } :=
  role_contract_violation_cached rmNoLoc loc0 "r" [] noLocFactory rfl rfl
    (by decide)

/-- C2 counterexample: the two kwargs lists are equal as maps but supplied
in different key orders; the cache key is the unsorted kwargs tuple, so
the two calls miss each other: the factory runs twice and the returned
controllers differ, refuting the claimed single factory invocation and
identical result. -/
theorem role_kwargs_order_counterexample :
    dictBeq [("a", 1), ("b", 2)] [("b", 2), ("a", 1)] = true ∧
    ((Location.role rmFresh loc0 "r" [("a", 1), ("b", 2)]).2.2 ++
      (Location.role rmFresh
        (Location.role rmFresh loc0 "r" [("a", 1), ("b", 2)]).2.1
        "r" [("b", 2), ("a", 1)]).2.2).countP isBuild = 2 ∧
    (Location.role rmFresh loc0 "r" [("a", 1), ("b", 2)]).1
      ≠ (Location.role rmFresh
          (Location.role rmFresh loc0 "r" [("a", 1), ("b", 2)]).2.1
          "r" [("b", 2), ("a", 1)]).1 := by
  decide

/-- C2 amended: two `role` calls with the kwargs in the *same* key order
hit one cache entry: the first (uncached) call invokes the factory exactly
once and the second returns the identical controller with no factory
invocation, no state change and no events. -/
theorem role_cached_same_kwargs_order (rm : RoleManager) (loc : Location)
    (name : String) (kwargs : Kwargs) (ctl : Controller)
    (hmiss : alookup loc.roles (name, kwargs) = none)
    (hok : (Location.role rm loc name kwargs).1 = Except.ok ctl) :
    (Location.role rm loc name kwargs).2.2.countP isBuild = 1 ∧
    Location.role rm (Location.role rm loc name kwargs).2.1 name kwargs
      = (Except.ok ctl, (Location.role rm loc name kwargs).2.1, []) := by
  rcases hb : RoleManager.build rm name loc kwargs with e | built
  · simp [Location.role, hmiss, hb] at hok
  · cases hloc : built.location with
    | none => simp [Location.role, hmiss, hb, hloc] at hok
    | some lid =>
      by_cases hlid : lid = loc.locId
      · have hfirst : Location.role rm loc name kwargs
            = (Except.ok { built with key := (name, kwargs) },
               { loc with roles := loc.roles
                  ++ [((name, kwargs), { built with key := (name, kwargs) })] },
               [.build (name, kwargs), .registered name loc.hostname,
                .roleCreated built.id]) := by
          simp [Location.role, hmiss, hb, hloc, hlid]
        rw [hfirst] at hok ⊢
        simp only at hok
        have hctl : { built with key := (name, kwargs) } = ctl :=
          Except.ok.inj hok
        subst hctl
        constructor
        · rfl
        · have hlk : alookup (loc.roles ++ [((name, kwargs),
              ({ built with key := (name, kwargs) } : Controller))]) (name, kwargs)
              = some { built with key := (name, kwargs) } := by
            rw [alookup_append, hmiss]
            simp [alookup, oor]
          simp [Location.role, hlk]
      · simp [Location.role, hmiss, hb, hloc, hlid] at hok

theorem role_cached_same_kwargs_order_witness :
    (Location.role rmFresh loc0 "r" [("a", 1)]).2.2.countP isBuild = 1 ∧
    Location.role rmFresh (Location.role rmFresh loc0 "r" [("a", 1)]).2.1
        "r" [("a", 1)]
      = (Except.ok ⟨0, some 0, "r", ("r", [("a", 1)]), false, false⟩,
         (Location.role rmFresh loc0 "r" [("a", 1)]).2.1, []) :=
  role_cached_same_kwargs_order rmFresh loc0 "r" [("a", 1)]
    ⟨0, some 0, "r", ("r", [("a", 1)]), false, false⟩ rfl (by decide)

end PytestLab
